import Mathlib

/-!
Verification of the Propofol-Calculator repository.

The pharmacokinetic core lives in `file-fv3.py` (function
`calculate_propofol_infusion_flexible` with its nested `pk_model`), and the
independent bolus calculator in `sallam_propofol_calc.py`.

Modelling choices:
* Python floats are modelled as exact rationals `ℚ`; the arithmetic of the
  program (products, quotients, comparisons, decimal literals) is exact in `ℚ`.
* `scipy.integrate.odeint` is an external numerical library routine, not code
  of this repository; it is modelled as an arbitrary deterministic function
  `OdeSolver` taking the weight (the `pk_model` closure parameter), the
  initial-condition 4-tuple, and the infusion rate in mg/min, and returning
  the sampled state trajectory on the fixed 1201-point time grid.  All
  theorems about the search / reporting logic are proved for every such
  solver function.
* Python's `str` formatting of a float is likewise external; it is modelled
  as an arbitrary function `fmtQ : ℚ → String` threaded through the message
  construction.
* Python's `round(x, n)` (round-half-to-even at `n` decimal digits) is
  modelled exactly on `ℚ` by `round_half_even`.
-/

namespace Propofol

/-- `np.linspace(0, 120, 1201)`: the fixed sample-time grid, 0.1-minute
spacing over the two-hour horizon. -/
def time_points (i : Fin 1201) : ℚ := (i.val : ℚ) / 10

/-- Exact model of Python's banker's rounding to an integer:
round half to even. -/
def round_half_even (x : ℚ) : ℤ :=
  let f := ⌊x⌋
  let r := x - (f : ℚ)
  if r < 1/2 then f
  else if 1/2 < r then f + 1
  else if 2 ∣ f then f else f + 1

/-- Python `round(x, 1)` on exact rationals. -/
def pyRound1 (x : ℚ) : ℚ := (round_half_even (10 * x) : ℚ) / 10

/-- Python `round(x, 2)` on exact rationals. -/
def pyRound2 (x : ℚ) : ℚ := (round_half_even (100 * x) : ℚ) / 100

/-- `np.arange(3, 15, 0.1)`: the ascending candidate grid
3.0, 3.1, ..., 14.9 mg/kg/h (120 candidates). -/
def infusion_rates_mgkg_h : List ℚ := (List.range 120).map (fun i => 3 + (i : ℚ) / 10)

/-- The indices with `time_points > 10` used for the steady-state window
(`Ce[time_points > 10]`). -/
def steady_set : Finset (Fin 1201) := Finset.univ.filter (fun i => 10 < time_points i)

/-- `np.mean` over the steady-state window of a sampled curve. -/
def mean_steady (Ce : Fin 1201 → ℚ) : ℚ :=
  (∑ i ∈ steady_set, Ce i) / (steady_set.card : ℚ)

/-- Abstract model of `scipy.integrate.odeint` applied to `pk_model`:
arguments are the patient weight (fixing the rate-constant closure of
`pk_model`), the initial-condition tuple `(A1, A2, A3, Ae)`, and the
infusion rate in mg/min; the value is the state trajectory sampled on the
fixed `time_points` grid. -/
def OdeSolver : Type :=
  ℚ → ℚ × ℚ × ℚ × ℚ → ℚ → Fin 1201 → ℚ × ℚ × ℚ × ℚ

/-- `sol[:, 0] / (V1 * 1000)`: plasma concentration curve of the solution
with the bolus initial condition `[bolus_dose*weight*1000, 0, 0, 0]`. -/
def C1_of (odeintF : OdeSolver) (weight bolus_dose rate_mg_per_min : ℚ) (i : Fin 1201) : ℚ :=
  (odeintF weight (bolus_dose * weight * 1000, 0, 0, 0) rate_mg_per_min i).1
    / (0.458 * weight * 1000)

/-- `sol[:, 3] / (V1 * 1000)`: effect-site concentration curve of the
solution with the bolus initial condition `[bolus_dose*weight*1000, 0, 0, 0]`. -/
def Ce_of (odeintF : OdeSolver) (weight bolus_dose rate_mg_per_min : ℚ) (i : Fin 1201) : ℚ :=
  (odeintF weight (bolus_dose * weight * 1000, 0, 0, 0) rate_mg_per_min i).2.2.2
    / (0.458 * weight * 1000)

/-- The mean steady-state Ce computed by the search pass for one candidate
rate (mg/kg/h): solve at `rate * weight / 60` mg/min and average Ce over
`time_points > 10`. -/
def search_mean (odeintF : OdeSolver) (weight bolus_dose rate_mgkg_h : ℚ) : ℚ :=
  mean_steady (Ce_of odeintF weight bolus_dose (rate_mgkg_h * weight / 60))

/-- One iteration of the search loop.  The running best is
`some (best_rate, best_score)`; `none` models the initial state
`best_rate = None, best_score = inf` (any score beats infinity).  A
candidate qualifies when its mean lies in `[1.2, 1.4]`; the best is
replaced only on a strict score improvement. -/
def searchStep (meanOf : ℚ → ℚ) (acc : Option (ℚ × ℚ)) (rate_mgkg_h : ℚ) : Option (ℚ × ℚ) :=
  let mean_Ce := meanOf rate_mgkg_h
  if 1.2 ≤ mean_Ce ∧ mean_Ce ≤ 1.4 then
    let score := |mean_Ce - (1.2 + 1.4) / 2|
    match acc with
    | none => some (rate_mgkg_h, score)
    | some (best_rate, best_score) =>
      if score < best_score then some (rate_mgkg_h, score) else some (best_rate, best_score)
  else acc

/-- The full ascending scan of the candidate grid. -/
def searchBest (meanOf : ℚ → ℚ) : Option (ℚ × ℚ) :=
  infusion_rates_mgkg_h.foldl (searchStep meanOf) none

/-- `np.where(Ce > threshold)[0][0]`-style first crossing: the first sample
index satisfying the predicate, if any. -/
def first_time (p : ℚ → Bool) (Ce : Fin 1201 → ℚ) : Option (Fin 1201) :=
  (List.finRange 1201).find? (fun i => p (Ce i))

def exceed_warning_msg (fmtQ : ℚ → String) (t : ℚ) : String :=
  "Ce will exceed " ++ fmtQ 1.4 ++ " mcg/mL at approximately " ++ fmtQ (pyRound1 t)
    ++ " minutes."

def no_exceed_warning_msg (fmtQ : ℚ → String) : String :=
  "Ce does not exceed the upper target (" ++ fmtQ 1.4 ++ " mcg/mL) in the first 2 hours."

def reduction_warning_msg (fmtQ : ℚ → String) (t : ℚ) : String :=
  "Consider reducing the infusion rate at " ++ fmtQ (pyRound1 t)
    ++ " minutes to prevent overshooting the target."

def no_reduction_warning_msg : String :=
  "No infusion rate reduction needed in the first 2 hours."

def reach_info_msg (fmtQ : ℚ → String) (t : ℚ) : String :=
  "Ce reaches the lower target (" ++ fmtQ 1.2 ++ " mcg/mL) at " ++ fmtQ (pyRound1 t)
    ++ " minutes."

def no_reach_info_msg : String :=
  "Ce does not reach the lower target in the first 2 hours."

/-- The `exceed_time` value from the first upper-bound crossing
(`np.where(Ce > target_ce_max)[0]`, first entry, or `None`). -/
def exceed_time_of (exceedo : Option (Fin 1201)) : Option ℚ :=
  match exceedo with
  | some i => some (time_points i)
  | none => none

/-- The `warning` message chosen by the presence of the upper-bound
crossing. -/
def warning_of (fmtQ : ℚ → String) (exceedo : Option (Fin 1201)) : String :=
  match exceedo with
  | some i => exceed_warning_msg fmtQ (time_points i)
  | none => no_exceed_warning_msg fmtQ

/-- The `reduction_warning` message chosen by the presence of the
upper-bound crossing. -/
def reduction_warning_of (fmtQ : ℚ → String) (exceedo : Option (Fin 1201)) : String :=
  match exceedo with
  | some i => reduction_warning_msg fmtQ (time_points i)
  | none => no_reduction_warning_msg

/-- The `reach_time` value from the first lower-bound crossing
(`np.where(Ce >= target_ce_min)[0]`, first entry, or `None`). -/
def reach_time_of (reacho : Option (Fin 1201)) : Option ℚ :=
  match reacho with
  | some i => some (time_points i)
  | none => none

/-- The `reach_info` message chosen by the presence of the lower-bound
crossing. -/
def reach_info_of (fmtQ : ℚ → String) (reacho : Option (Fin 1201)) : String :=
  match reacho with
  | some i => reach_info_msg fmtQ (time_points i)
  | none => no_reach_info_msg

/-- The fields of the success-shaped result dictionary. -/
structure SuccessData where
  weight : ℚ
  bolus_dose_mgkg : ℚ
  bolus_dose_mg : ℚ
  infusion_rate_mgkg_h : ℚ
  total_infusion_rate_mg_h : ℚ
  infusion_rate_mg_min : ℚ
  expected_ce : ℚ
  target_range : String
  exceed_time : Option ℚ
  reach_time : Option ℚ
  warning : String
  reduction_warning : String
  reach_info : String
  C1_curve : Fin 1201 → ℚ
  Ce_curve : Fin 1201 → ℚ
  time_points : Fin 1201 → ℚ

/-- The two shapes of the result dictionary: the success shape carries the
full trajectory and report fields; the failure shape carries only the echoed
inputs and the error string (no trajectory, curve, rate or crossing-time
fields exist on it). -/
inductive InfusionResult where
  | success (d : SuccessData)
  | failure (weight bolus_dose_mgkg : ℚ) (error : String)

/-- The success-shaped result built at the winning rate (the body of the
`if best_rate is not None` branch of the source): the reporting re-run of
the simulation at the winning rate with the same initial condition, grid and
parameters, and all derived report fields. -/
def success_of (odeintF : OdeSolver) (fmtQ : ℚ → String)
    (weight bolus_dose best_rate : ℚ) : SuccessData :=
  let rate_mg_per_min := best_rate * weight / 60
  let C1c := C1_of odeintF weight bolus_dose rate_mg_per_min
  let Cec := Ce_of odeintF weight bolus_dose rate_mg_per_min
  let exceedo := first_time (fun c => decide ((1.4 : ℚ) < c)) Cec
  let reacho := first_time (fun c => decide ((1.2 : ℚ) ≤ c)) Cec
  { weight := weight
    bolus_dose_mgkg := bolus_dose
    bolus_dose_mg := bolus_dose * weight
    infusion_rate_mgkg_h := pyRound1 best_rate
    total_infusion_rate_mg_h := pyRound1 (best_rate * weight)
    infusion_rate_mg_min := pyRound2 (best_rate * weight / 60)
    expected_ce := pyRound2 (mean_steady Cec)
    target_range := fmtQ 1.2 ++ "-" ++ fmtQ 1.4
    exceed_time := exceed_time_of exceedo
    reach_time := reach_time_of reacho
    warning := warning_of fmtQ exceedo
    reduction_warning := reduction_warning_of fmtQ exceedo
    reach_info := reach_info_of fmtQ reacho
    C1_curve := C1c
    Ce_curve := Cec
    time_points := time_points }

/-- The `if best_rate is not None` dispatch of the source: a found best rate
yields the success result at that rate, `None` yields the failure result. -/
def calculate_from (odeintF : OdeSolver) (fmtQ : ℚ → String)
    (weight bolus_dose : ℚ) (best : Option (ℚ × ℚ)) : InfusionResult :=
  match best with
  | some (best_rate, _best_score) =>
    InfusionResult.success (success_of odeintF fmtQ weight bolus_dose best_rate)
  | none => InfusionResult.failure weight bolus_dose "No suitable infusion rate found"

/-- `calculate_propofol_infusion_flexible`, for an arbitrary solver model
and float formatter: ascending grid scan scoring the mean steady-state Ce,
then the success result at the winning rate, or the failure result when no
candidate qualifies. -/
def calculate_propofol_infusion_flexible (odeintF : OdeSolver) (fmtQ : ℚ → String)
    (weight bolus_dose : ℚ) : InfusionResult :=
  calculate_from odeintF fmtQ weight bolus_dose
    (searchBest (fun r => search_mean odeintF weight bolus_dose r))

/-- The right-hand side of the compartment ODE system, abstracted over the
five micro rate constants and `ke0` (the body of `pk_model`). -/
def pk_rhs (k10 k12 k21 k13 k31 ke0 : ℚ) (y : ℚ × ℚ × ℚ × ℚ)
    (infusion_mcg_per_min : ℚ) : ℚ × ℚ × ℚ × ℚ :=
  match y with
  | (A1, A2, A3, Ae) =>
    (-(k10 + k12 + k13) * A1 + k21 * A2 + k31 * A3 + infusion_mcg_per_min,
     k12 * A1 - k21 * A2,
     k13 * A1 - k31 * A3,
     ke0 * A1 - ke0 * Ae)

/-- The nested `pk_model(y, t, infusion_rate)` of the source, with the
weight-derived parameter closure written out.  `t` is accepted and unused,
as in the source. -/
def pk_model (weight : ℚ) (y : ℚ × ℚ × ℚ × ℚ) (t : ℚ) (infusion_rate : ℚ) :
    ℚ × ℚ × ℚ × ℚ :=
  let V1 := 0.458 * weight
  let V2 := 0.308 * weight
  let V3 := 0.789 * weight
  let CL1 := 0.119 * weight
  let CL2 := 0.112 * weight
  let CL3 := 0.042 * weight
  let ke0 : ℚ := 0.152
  let k10 := CL1 / V1
  let k12 := CL2 / V1
  let k21 := CL2 / V2
  let k13 := CL3 / V1
  let k31 := CL3 / V3
  let infusion_mcg_per_min := infusion_rate * 1000
  let _ := t
  pk_rhs k10 k12 k21 k13 k31 ke0 y infusion_mcg_per_min

/-- The checkpoint times of the concentration table. -/
def key_times : List ℚ := [0.5, 1, 2, 3, 5, 10, 15, 20, 30, 45, 60, 90, 120]

/-- `np.abs(time_points - t).argmin()`: first index minimising the distance
to `t` (NumPy's argmin keeps the first occurrence of the minimum). -/
def nearest_idx (t : ℚ) : Fin 1201 :=
  (List.finRange 1201).foldl
    (fun best i => if |time_points i - t| < |time_points best - t| then i else best)
    ⟨0, by norm_num⟩

/-- The checkpoint table: one row `(time, plasma C1, effect-site Ce)` per key
time, values taken at the nearest sample index and rounded to 2 decimals. -/
def concentration_table (C1c Cec : Fin 1201 → ℚ) : List (ℚ × ℚ × ℚ) :=
  key_times.map (fun t => (t, pyRound2 (C1c (nearest_idx t)), pyRound2 (Cec (nearest_idx t))))

/-! ### The Sallam bolus calculator (`sallam_propofol_calc.py`) -/

/-- `calculate_bsa`: Body Surface Area by the Mosteller formula. -/
noncomputable def calculate_bsa (weight_kg height_cm : ℝ) : ℝ :=
  Real.sqrt ((height_cm * weight_kg) / 3600)

/-- `calculate_bolus_dose`: the Sallam formula. -/
noncomputable def calculate_bolus_dose (age_months bsa_m2 : ℝ) : ℝ :=
  0.75 + 0.14 * age_months + 45.82 * bsa_m2

/-- `dose_per_kg = bolus_dose / weight_kg` as computed by the script. -/
noncomputable def dose_per_kg (age_months weight_kg height_cm : ℝ) : ℝ :=
  calculate_bolus_dose age_months (calculate_bsa weight_kg height_cm) / weight_kg

/-- The three qualitative safety bands of the assessment block. -/
inductive DoseBand where
  | high
  | low
  | normal
deriving DecidableEq

/-- The `if dose_per_kg > 3.0 / elif dose_per_kg < 1.0 / else` banding of the
safety-assessment block. -/
noncomputable def safety_band (dpk : ℝ) : DoseBand :=
  if 3.0 < dpk then DoseBand.high
  else if dpk < 1.0 then DoseBand.low
  else DoseBand.normal

/-- The dosing computation in the case that the search found a best rate. -/
theorem calculate_of_some (odeintF : OdeSolver) (fmtQ : ℚ → String)
    (weight bolus_dose br bs : ℚ)
    (h : searchBest (fun r => search_mean odeintF weight bolus_dose r) = some (br, bs)) :
    calculate_propofol_infusion_flexible odeintF fmtQ weight bolus_dose =
      InfusionResult.success (success_of odeintF fmtQ weight bolus_dose br) := by
  unfold calculate_propofol_infusion_flexible
  rw [h]
  rfl

/-- The dosing computation in the case that no candidate qualified. -/
theorem calculate_of_none (odeintF : OdeSolver) (fmtQ : ℚ → String)
    (weight bolus_dose : ℚ)
    (h : searchBest (fun r => search_mean odeintF weight bolus_dose r) = none) :
    calculate_propofol_infusion_flexible odeintF fmtQ weight bolus_dose =
      InfusionResult.failure weight bolus_dose "No suitable infusion rate found" := by
  unfold calculate_propofol_infusion_flexible
  rw [h]
  rfl

/-! ### Properties of the search fold -/

/-- The qualification test of the search loop. -/
def qualifies (meanOf : ℚ → ℚ) (r : ℚ) : Prop := 1.2 ≤ meanOf r ∧ meanOf r ≤ 1.4

/-- The score (distance of the mean to the band midpoint) of a candidate. -/
def scoreOf (meanOf : ℚ → ℚ) (r : ℚ) : ℚ := |meanOf r - (1.2 + 1.4) / 2|

theorem searchStep_not_qual (meanOf : ℚ → ℚ) (acc : Option (ℚ × ℚ)) (r : ℚ)
    (h : ¬ qualifies meanOf r) : searchStep meanOf acc r = acc := by
  unfold searchStep
  exact if_neg h

theorem searchStep_qual_none (meanOf : ℚ → ℚ) (r : ℚ) (h : qualifies meanOf r) :
    searchStep meanOf none r = some (r, scoreOf meanOf r) := by
  show (if 1.2 ≤ meanOf r ∧ meanOf r ≤ 1.4 then some (r, scoreOf meanOf r) else none)
      = some (r, scoreOf meanOf r)
  exact if_pos h

theorem searchStep_qual_lt (meanOf : ℚ → ℚ) (r br bs : ℚ) (h : qualifies meanOf r)
    (hlt : scoreOf meanOf r < bs) :
    searchStep meanOf (some (br, bs)) r = some (r, scoreOf meanOf r) := by
  show (if 1.2 ≤ meanOf r ∧ meanOf r ≤ 1.4 then
        (if scoreOf meanOf r < bs then some (r, scoreOf meanOf r) else some (br, bs))
      else some (br, bs)) = some (r, scoreOf meanOf r)
  have h' : 1.2 ≤ meanOf r ∧ meanOf r ≤ 1.4 := h
  rw [if_pos h']
  exact if_pos hlt

theorem searchStep_qual_ge (meanOf : ℚ → ℚ) (r br bs : ℚ) (h : qualifies meanOf r)
    (hge : ¬ scoreOf meanOf r < bs) :
    searchStep meanOf (some (br, bs)) r = some (br, bs) := by
  show (if 1.2 ≤ meanOf r ∧ meanOf r ≤ 1.4 then
        (if scoreOf meanOf r < bs then some (r, scoreOf meanOf r) else some (br, bs))
      else some (br, bs)) = some (br, bs)
  have h' : 1.2 ≤ meanOf r ∧ meanOf r ≤ 1.4 := h
  rw [if_pos h']
  exact if_neg hge

/-- The scan yields `none` exactly when it started from `none` and no scanned
candidate qualifies. -/
theorem search_go_none_iff (meanOf : ℚ → ℚ) :
    ∀ (l : List ℚ) (acc : Option (ℚ × ℚ)),
      l.foldl (searchStep meanOf) acc = none ↔
        acc = none ∧ ∀ r ∈ l, ¬ qualifies meanOf r := by
  intro l
  induction l with
  | nil => intro acc; simp
  | cons x xs ih =>
    intro acc
    rw [List.foldl_cons, ih]
    constructor
    · rintro ⟨hstep, hxs⟩
      by_cases hq : qualifies meanOf x
      · exfalso
        cases acc with
        | none => rw [searchStep_qual_none meanOf x hq] at hstep; exact Option.some_ne_none _ hstep
        | some p =>
          obtain ⟨br, bs⟩ := p
          by_cases hlt : scoreOf meanOf x < bs
          · rw [searchStep_qual_lt meanOf x br bs hq hlt] at hstep
            exact Option.some_ne_none _ hstep
          · rw [searchStep_qual_ge meanOf x br bs hq hlt] at hstep
            exact Option.some_ne_none _ hstep
      · rw [searchStep_not_qual meanOf acc x hq] at hstep
        refine ⟨hstep, ?_⟩
        intro r hr
        rcases List.mem_cons.mp hr with h | h
        · exact h ▸ hq
        · exact hxs r h
    · rintro ⟨hacc, hall⟩
      subst hacc
      rw [searchStep_not_qual meanOf none x (hall x (List.mem_cons_self x xs))]
      exact ⟨rfl, fun r hr => hall r (List.mem_cons_of_mem x hr)⟩

/-- Starting the scan from a running best, the final score never worsens, and
the best is replaced only on a strict improvement. -/
theorem search_go_decrease (meanOf : ℚ → ℚ) :
    ∀ (l : List ℚ) (br bs r s : ℚ),
      l.foldl (searchStep meanOf) (some (br, bs)) = some (r, s) →
      (r = br ∧ s = bs) ∨ s < bs := by
  intro l
  induction l with
  | nil =>
    intro br bs r s h
    rw [List.foldl_nil] at h
    injection h with h
    injection h with h1 h2
    exact Or.inl ⟨h1.symm, h2.symm⟩
  | cons x xs ih =>
    intro br bs r s h
    rw [List.foldl_cons] at h
    by_cases hq : qualifies meanOf x
    · by_cases hlt : scoreOf meanOf x < bs
      · rw [searchStep_qual_lt meanOf x br bs hq hlt] at h
        rcases ih x (scoreOf meanOf x) r s h with ⟨h1, h2⟩ | h2
        · exact Or.inr (h2 ▸ hlt)
        · exact Or.inr (lt_trans h2 hlt)
      · rw [searchStep_qual_ge meanOf x br bs hq hlt] at h
        exact ih br bs r s h
    · rw [searchStep_not_qual meanOf _ x hq] at h
      exact ih br bs r s h

/-- A `some` result of the scan is either the unchanged start or a qualifying
scanned candidate carrying its own score. -/
theorem search_go_source (meanOf : ℚ → ℚ) :
    ∀ (l : List ℚ) (acc : Option (ℚ × ℚ)) (r s : ℚ),
      l.foldl (searchStep meanOf) acc = some (r, s) →
      acc = some (r, s) ∨ (r ∈ l ∧ qualifies meanOf r ∧ s = scoreOf meanOf r) := by
  intro l
  induction l with
  | nil =>
    intro acc r s h
    rw [List.foldl_nil] at h
    exact Or.inl h
  | cons x xs ih =>
    intro acc r s h
    rw [List.foldl_cons] at h
    by_cases hq : qualifies meanOf x
    · cases acc with
      | none =>
        rw [searchStep_qual_none meanOf x hq] at h
        rcases ih (some (x, scoreOf meanOf x)) r s h with h1 | h1
        · injection h1 with h1
          injection h1 with h1 h2
          exact Or.inr ⟨h1 ▸ List.mem_cons_self x xs, h1 ▸ hq, h2 ▸ (h1 ▸ rfl)⟩
        · exact Or.inr ⟨List.mem_cons_of_mem x h1.1, h1.2⟩
      | some p =>
        obtain ⟨br, bs⟩ := p
        by_cases hlt : scoreOf meanOf x < bs
        · rw [searchStep_qual_lt meanOf x br bs hq hlt] at h
          rcases ih (some (x, scoreOf meanOf x)) r s h with h1 | h1
          · injection h1 with h1
            injection h1 with h1 h2
            exact Or.inr ⟨h1 ▸ List.mem_cons_self x xs, h1 ▸ hq, h2 ▸ (h1 ▸ rfl)⟩
          · exact Or.inr ⟨List.mem_cons_of_mem x h1.1, h1.2⟩
        · rw [searchStep_qual_ge meanOf x br bs hq hlt] at h
          rcases ih (some (br, bs)) r s h with h1 | h1
          · exact Or.inl h1
          · exact Or.inr ⟨List.mem_cons_of_mem x h1.1, h1.2⟩
    · rw [searchStep_not_qual meanOf acc x hq] at h
      rcases ih acc r s h with h1 | h1
      · exact Or.inl h1
      · exact Or.inr ⟨List.mem_cons_of_mem x h1.1, h1.2⟩

/-- The final score of the scan is minimal among the scores of all qualifying
scanned candidates. -/
theorem search_go_min (meanOf : ℚ → ℚ) :
    ∀ (l : List ℚ) (acc : Option (ℚ × ℚ)) (r s : ℚ),
      l.foldl (searchStep meanOf) acc = some (r, s) →
      ∀ x ∈ l, qualifies meanOf x → s ≤ scoreOf meanOf x := by
  intro l
  induction l with
  | nil => intro acc r s _ x hx; exact absurd hx (List.not_mem_nil x)
  | cons y ys ih =>
    intro acc r s h x hx hqx
    rw [List.foldl_cons] at h
    rcases List.mem_cons.mp hx with hxy | hxys
    · subst hxy
      by_cases hq : qualifies meanOf x
      · cases acc with
        | none =>
          rw [searchStep_qual_none meanOf x hq] at h
          rcases search_go_decrease meanOf ys x (scoreOf meanOf x) r s h with ⟨_, h2⟩ | h2
          · exact le_of_eq h2
          · exact le_of_lt h2
        | some p =>
          obtain ⟨br, bs⟩ := p
          by_cases hlt : scoreOf meanOf x < bs
          · rw [searchStep_qual_lt meanOf x br bs hq hlt] at h
            rcases search_go_decrease meanOf ys x (scoreOf meanOf x) r s h with ⟨_, h2⟩ | h2
            · exact le_of_eq h2
            · exact le_of_lt h2
          · rw [searchStep_qual_ge meanOf x br bs hq hlt] at h
            rcases search_go_decrease meanOf ys br bs r s h with ⟨_, h2⟩ | h2
            · exact h2 ▸ le_of_not_lt hlt
            · exact le_of_lt (lt_of_lt_of_le h2 (le_of_not_lt hlt))
      · exact absurd hqx hq
    · exact ih (searchStep meanOf acc y) r s h x hxys hqx

/-- Tie-break: on a strictly ascending scan started below the list, any
scanned qualifying candidate whose score is not worse than the final score is
not earlier than the final best — the first minimal-score qualifier wins. -/
theorem search_go_tie (meanOf : ℚ → ℚ) :
    ∀ (l : List ℚ), l.Pairwise (· < ·) →
      ∀ (acc : Option (ℚ × ℚ)),
        (∀ br bs, acc = some (br, bs) → ∀ x ∈ l, br < x) →
        ∀ r s, l.foldl (searchStep meanOf) acc = some (r, s) →
          ∀ x ∈ l, qualifies meanOf x → scoreOf meanOf x ≤ s → r ≤ x := by
  intro l
  induction l with
  | nil => intro _ acc _ r s _ x hx; exact absurd hx (List.not_mem_nil x)
  | cons y ys ih =>
    intro hpair acc hacc r s h x hx hqx hsx
    have hy : ∀ z ∈ ys, y < z := fun z hz => (List.pairwise_cons.mp hpair).1 z hz
    have hpys : ys.Pairwise (· < ·) := (List.pairwise_cons.mp hpair).2
    rw [List.foldl_cons] at h
    have hacc' : ∀ br bs, searchStep meanOf acc y = some (br, bs) → ∀ z ∈ ys, br < z := by
      intro br bs hstep z hz
      by_cases hq : qualifies meanOf y
      · cases hA : acc with
        | none =>
          rw [hA, searchStep_qual_none meanOf y hq] at hstep
          injection hstep with hstep
          injection hstep with h1 _
          exact h1 ▸ hy z hz
        | some p =>
          obtain ⟨b0, s0⟩ := p
          by_cases hlt : scoreOf meanOf y < s0
          · rw [hA, searchStep_qual_lt meanOf y b0 s0 hq hlt] at hstep
            injection hstep with hstep
            injection hstep with h1 _
            exact h1 ▸ hy z hz
          · rw [hA, searchStep_qual_ge meanOf y b0 s0 hq hlt] at hstep
            injection hstep with hstep
            injection hstep with h1 _
            exact h1 ▸ hacc b0 s0 hA z (List.mem_cons_of_mem y hz)
      · rw [searchStep_not_qual meanOf acc y hq] at hstep
        exact hacc br bs hstep z (List.mem_cons_of_mem y hz)
    rcases List.mem_cons.mp hx with hxy | hxys
    · subst hxy
      by_cases hq : qualifies meanOf x
      · cases hA : acc with
        | none =>
          rw [hA, searchStep_qual_none meanOf x hq] at h
          rcases search_go_decrease meanOf ys x (scoreOf meanOf x) r s h with ⟨h1, _⟩ | h2
          · exact le_of_eq h1
          · exact absurd (lt_of_lt_of_le h2 hsx) (lt_irrefl s)
        | some p =>
          obtain ⟨b0, s0⟩ := p
          by_cases hlt : scoreOf meanOf x < s0
          · rw [hA, searchStep_qual_lt meanOf x b0 s0 hq hlt] at h
            rcases search_go_decrease meanOf ys x (scoreOf meanOf x) r s h with ⟨h1, _⟩ | h2
            · exact le_of_eq h1
            · exact absurd (lt_of_lt_of_le h2 hsx) (lt_irrefl s)
          · rw [hA, searchStep_qual_ge meanOf x b0 s0 hq hlt] at h
            rcases search_go_decrease meanOf ys b0 s0 r s h with ⟨h1, _⟩ | h2
            · exact le_of_lt (h1 ▸ hacc b0 s0 hA x (List.mem_cons_self x ys))
            · exact absurd (lt_of_lt_of_le (lt_of_lt_of_le h2 (le_of_not_lt hlt)) hsx)
                (lt_irrefl s)
      · exact absurd hqx hq
    · exact ih hpys (searchStep meanOf acc y) hacc' r s h x hxys hqx hsx

/-- The candidate grid is strictly ascending. -/
theorem infusion_rates_ascending : infusion_rates_mgkg_h.Pairwise (· < ·) := by
  have h : (List.range 120).Pairwise (fun a b : ℕ => ((3 + (a:ℚ)/10 : ℚ)) < 3 + (b:ℚ)/10) := by
    refine (List.pairwise_lt_range 120).imp ?_
    intro a b hab
    have h1 : (a : ℚ) < (b : ℚ) := by exact_mod_cast hab
    linarith
  exact (@List.pairwise_map ℕ ℚ (fun i => 3 + (i : ℚ) / 10) (· < ·) (List.range 120)).mpr h

/-! ### First-crossing, rounding, mean and argmin lemmas -/

/-- On a list that is pairwise related by `R`, `find?` returns an element
that is `R`-before (or equal to) every member satisfying the predicate. -/
theorem find?_min_rel {α : Type} (R : α → α → Prop) (p : α → Bool) :
    ∀ (l : List α), l.Pairwise R → ∀ a, l.find? p = some a →
      ∀ b ∈ l, p b = true → R a b ∨ a = b := by
  intro l
  induction l with
  | nil => intro _ a ha; rw [List.find?_nil] at ha; exact absurd ha (by simp)
  | cons x xs ih =>
    intro hp a ha b hb hpb
    have hx : ∀ z ∈ xs, R x z := fun z hz => (List.pairwise_cons.mp hp).1 z hz
    have hpxs : xs.Pairwise R := (List.pairwise_cons.mp hp).2
    rw [List.find?_cons] at ha
    cases hpx : p x with
    | true =>
      rw [hpx] at ha
      injection ha with ha
      subst ha
      rcases List.mem_cons.mp hb with h | h
      · exact Or.inr h.symm
      · exact Or.inl (hx b h)
    | false =>
      rw [hpx] at ha
      rcases List.mem_cons.mp hb with h | h
      · subst h; rw [hpb] at hpx; exact absurd hpx (by simp)
      · exact ih hpxs a ha b h hpb

theorem first_time_some (p : ℚ → Bool) (Ce : Fin 1201 → ℚ) (i : Fin 1201)
    (h : first_time p Ce = some i) :
    p (Ce i) = true ∧ ∀ j : Fin 1201, j < i → p (Ce j) = false := by
  unfold first_time at h
  have h0 := List.find?_some h
  refine ⟨h0, ?_⟩
  intro j hj
  cases hpj : p (Ce j) with
  | false => rfl
  | true =>
    exfalso
    have := find?_min_rel (· < ·) (fun k => p (Ce k)) (List.finRange 1201)
      (List.pairwise_lt_finRange 1201) i h j (List.mem_finRange j) hpj
    rcases this with h1 | h1
    · exact absurd (lt_trans h1 hj) (lt_irrefl i)
    · subst h1; exact absurd hj (lt_irrefl i)

theorem first_time_none (p : ℚ → Bool) (Ce : Fin 1201 → ℚ)
    (h : first_time p Ce = none) : ∀ i, p (Ce i) = false := by
  unfold first_time at h
  intro i
  have := List.find?_eq_none.mp h i (List.mem_finRange i)
  simpa using this

attribute [irreducible] first_time

theorem round_half_even_intCast (n : ℤ) : round_half_even (n : ℚ) = n := by
  unfold round_half_even
  simp only [Int.floor_intCast, sub_self]
  norm_num

/-- `round(x, 1)` is the identity on exact multiples of one tenth. -/
theorem pyRound1_tenth (n : ℤ) : pyRound1 ((n : ℚ) / 10) = (n : ℚ) / 10 := by
  unfold pyRound1
  rw [show (10 : ℚ) * ((n : ℚ) / 10) = (n : ℚ) by ring, round_half_even_intCast]

/-- Membership in the candidate grid, explicitly. -/
theorem mem_infusion_rates (r : ℚ) :
    r ∈ infusion_rates_mgkg_h ↔ ∃ i : ℕ, i < 120 ∧ r = 3 + (i : ℚ) / 10 := by
  unfold infusion_rates_mgkg_h
  constructor
  · intro h
    rcases (@List.mem_map ℕ ℚ r (fun i => 3 + (i : ℚ) / 10) (List.range 120)).mp h
      with ⟨i, hi, hr⟩
    exact ⟨i, List.mem_range.mp hi, hr.symm⟩
  · rintro ⟨i, hi, hr⟩
    exact (@List.mem_map ℕ ℚ r (fun i => 3 + (i : ℚ) / 10) (List.range 120)).mpr
      ⟨i, List.mem_range.mpr hi, hr.symm⟩

/-- Every grid rate is an exact multiple of one tenth, so `round(·, 1)`
leaves it unchanged. -/
theorem pyRound1_grid (r : ℚ) (h : r ∈ infusion_rates_mgkg_h) : pyRound1 r = r := by
  rcases (mem_infusion_rates r).mp h with ⟨i, _, hr⟩
  subst hr
  have h30 : (3 : ℚ) + (i : ℚ) / 10 = ((30 + (i : ℤ) : ℤ) : ℚ) / 10 := by
    push_cast
    ring
  rw [h30, pyRound1_tenth]

theorem steady_set_nonempty : steady_set.Nonempty := by
  refine ⟨⟨101, by norm_num⟩, ?_⟩
  rw [steady_set, Finset.mem_filter]
  refine ⟨Finset.mem_univ _, ?_⟩
  show (10 : ℚ) < (101 : ℕ) / 10
  norm_num

theorem mean_steady_const (c : ℚ) : mean_steady (fun _ => c) = c := by
  unfold mean_steady
  rw [Finset.sum_const, nsmul_eq_mul]
  have hpos : 0 < steady_set.card := Finset.card_pos.mpr steady_set_nonempty
  have hcard : ((steady_set.card : ℚ)) ≠ 0 := Nat.cast_ne_zero.mpr hpos.ne'
  field_simp

/-- The first-minimum fold (NumPy `argmin`) attains a value not larger than
the start and than every scanned element. -/
theorem foldl_argmin_le {α : Type} (f : α → ℚ) :
    ∀ (l : List α) (a : α),
      f (l.foldl (fun best i => if f i < f best then i else best) a) ≤ f a ∧
      ∀ x ∈ l, f (l.foldl (fun best i => if f i < f best then i else best) a) ≤ f x := by
  intro l
  induction l with
  | nil => intro a; exact ⟨le_refl _, fun x hx => absurd hx (List.not_mem_nil x)⟩
  | cons x xs ih =>
    intro a
    rw [List.foldl_cons]
    by_cases hlt : f x < f a
    · rw [if_pos hlt]
      refine ⟨le_trans (ih x).1 (le_of_lt hlt), ?_⟩
      intro y hy
      rcases List.mem_cons.mp hy with h | h
      · exact h ▸ (ih x).1
      · exact (ih x).2 y h
    · rw [if_neg hlt]
      refine ⟨(ih a).1, ?_⟩
      intro y hy
      rcases List.mem_cons.mp hy with h | h
      · exact h ▸ le_trans (ih a).1 (le_of_not_lt hlt)
      · exact (ih a).2 y h

/-- `nearest_idx` minimises the distance to the requested time over the whole
sample grid. -/
theorem nearest_idx_min (t : ℚ) (j : Fin 1201) :
    |time_points (nearest_idx t) - t| ≤ |time_points j - t| := by
  have h := foldl_argmin_le (fun i : Fin 1201 => |time_points i - t|)
    (List.finRange 1201) ⟨0, by norm_num⟩
  exact h.2 j (List.mem_finRange j)

/-! ### Concrete solver models used for witnesses -/

/-- A concrete solver model: `Ae` constant in time, proportional to the
infusion rate, other compartments zero. -/
def odeintW : OdeSolver := fun _ _ rate_mg_per_min _ => (0, 0, 0, 2748 * rate_mg_per_min)

/-- A concrete solver model: the identically zero trajectory. -/
def odeintZ : OdeSolver := fun _ _ _ _ => (0, 0, 0, 0)

/-- A trivial float formatter for witnesses. -/
def fmt0 : ℚ → String := fun _ => ""

theorem search_mean_odeintW (r : ℚ) : search_mean odeintW 1 2 r = r / 10 := by
  unfold search_mean
  have hc : Ce_of odeintW 1 2 (r * 1 / 60) = fun _ => r / 10 := by
    funext i
    show 2748 * (r * 1 / 60) / (0.458 * 1 * 1000) = r / 10
    rw [div_eq_div_iff (by norm_num) (by norm_num)]
    ring
  rw [hc]
  exact mean_steady_const _

theorem search_mean_odeintZ (w b r : ℚ) : search_mean odeintZ w b r = 0 := by
  unfold search_mean
  have hc : Ce_of odeintZ w b (r * w / 60) = fun _ => (0 : ℚ) := by
    funext i
    show (0 : ℚ) / (0.458 * w * 1000) = 0
    exact zero_div _
  rw [hc]
  exact mean_steady_const 0

theorem searchBest_tenth : searchBest (fun r => r / 10) = some (13, 0) := by
  have h13 : (13 : ℚ) ∈ infusion_rates_mgkg_h := by
    rw [mem_infusion_rates]
    exact ⟨100, by norm_num, by norm_num⟩
  have hq13 : qualifies (fun r => r / 10) 13 := ⟨by norm_num, by norm_num⟩
  cases hsb : searchBest (fun r => r / 10) with
  | none =>
    exfalso
    have hnone := (search_go_none_iff (fun r => r / 10) infusion_rates_mgkg_h none).mp hsb
    exact hnone.2 13 h13 hq13
  | some p =>
    obtain ⟨br, bs⟩ := p
    have hsrc := search_go_source (fun r => r / 10) infusion_rates_mgkg_h none br bs hsb
    rcases hsrc with h1 | ⟨hmem, hqual, hscore⟩
    · exact absurd h1 (by simp)
    have hmin := search_go_min (fun r => r / 10) infusion_rates_mgkg_h none br bs hsb
      13 h13 hq13
    have hs13 : scoreOf (fun r => r / 10) 13 = 0 := by
      unfold scoreOf
      rw [show (13 : ℚ) / 10 - (1.2 + 1.4) / 2 = 0 by norm_num, abs_zero]
    rw [hs13] at hmin
    have hbs0 : bs = 0 := le_antisymm hmin (hscore ▸ abs_nonneg _)
    have hbr : br = 13 := by
      have h0 : scoreOf (fun r => r / 10) br = 0 := hbs0 ▸ hscore.symm
      unfold scoreOf at h0
      have h0' : br / 10 - (1.2 + 1.4) / 2 = 0 := abs_eq_zero.mp h0
      linarith
    rw [hbr, hbs0]

theorem searchBest_odeintW : searchBest (fun r => search_mean odeintW 1 2 r) = some (13, 0) := by
  have he : (fun r => search_mean odeintW 1 2 r) = fun r => r / 10 :=
    funext search_mean_odeintW
  rw [he]
  exact searchBest_tenth

/-- The concrete success result returned for the witness solver model. -/
def dW : SuccessData := success_of odeintW fmt0 1 2 13

theorem calculate_odeintW_eq :
    calculate_propofol_infusion_flexible odeintW fmt0 1 2 = InfusionResult.success dW :=
  calculate_of_some odeintW fmt0 1 2 13 0 searchBest_odeintW

/-! ### Claim theorems -/

/-- C2: for every weight > 0 and state `(A1, A2, A3, Ae)`, `pk_model` returns
exactly the mammillary three-compartment right-hand side with parameters
`V1 = 0.458·W`, `V2 = 0.308·W`, `V3 = 0.789·W`, `CL1 = 0.119·W`,
`CL2 = 0.112·W`, `CL3 = 0.042·W`, `k10 = CL1/V1`, `k12 = CL2/V1`,
`k21 = CL2/V2`, `k13 = CL3/V1`, `k31 = CL3/V3`, weight-independent
`ke0 = 0.152`, and infusion input `I = rate(mg/min) · 1000`. -/
theorem C2_pk_model_rhs (weight t infusion_rate A1 A2 A3 Ae : ℚ) (hW : 0 < weight) :
    pk_model weight (A1, A2, A3, Ae) t infusion_rate =
      (-((0.119 * weight) / (0.458 * weight) + (0.112 * weight) / (0.458 * weight) +
            (0.042 * weight) / (0.458 * weight)) * A1 +
          ((0.112 * weight) / (0.308 * weight)) * A2 +
          ((0.042 * weight) / (0.789 * weight)) * A3 + infusion_rate * 1000,
        ((0.112 * weight) / (0.458 * weight)) * A1 -
          ((0.112 * weight) / (0.308 * weight)) * A2,
        ((0.042 * weight) / (0.458 * weight)) * A1 -
          ((0.042 * weight) / (0.789 * weight)) * A3,
        0.152 * A1 - 0.152 * Ae) := rfl

/-- Witness for C2 at weight 20 kg. -/
theorem C2_pk_model_rhs_witness :
    (0 : ℚ) < 20 ∧
      pk_model 20 (1, 2, 3, 4) 0 5 =
        (-((0.119 * 20) / (0.458 * 20) + (0.112 * 20) / (0.458 * 20) +
              (0.042 * 20) / (0.458 * 20)) * 1 +
            ((0.112 * 20) / (0.308 * 20)) * 2 +
            ((0.042 * 20) / (0.789 * 20)) * 3 + 5 * 1000,
          ((0.112 * 20) / (0.458 * 20)) * 1 - ((0.112 * 20) / (0.308 * 20)) * 2,
          ((0.042 * 20) / (0.458 * 20)) * 1 - ((0.042 * 20) / (0.789 * 20)) * 3,
          0.152 * 1 - 0.152 * 4) :=
  ⟨by norm_num, C2_pk_model_rhs 20 0 5 1 2 3 4 (by norm_num)⟩

/-- The factorization of `pk_model` through the generic right-hand side:
the source body of `pk_model` is exactly `pk_rhs` applied to the derived
rate constants and the converted infusion input. -/
theorem pk_model_eq_rhs (weight : ℚ) (y : ℚ × ℚ × ℚ × ℚ) (t infusion_rate : ℚ) :
    pk_model weight y t infusion_rate =
      pk_rhs ((0.119 * weight) / (0.458 * weight)) ((0.112 * weight) / (0.458 * weight))
        ((0.112 * weight) / (0.308 * weight)) ((0.042 * weight) / (0.458 * weight))
        ((0.042 * weight) / (0.789 * weight)) 0.152 y (infusion_rate * 1000) := rfl

/-- C6: with all three clearances set to zero (hence all five micro rate
constants zero), the sum of the first three components of the right-hand
side equals exactly the infusion input — total compartment mass changes only
by the infused mass. -/
theorem C6_mass_conservation (V1 V2 V3 ke0 A1 A2 A3 Ae I CL1 CL2 CL3 : ℚ)
    (h1 : CL1 = 0) (h2 : CL2 = 0) (h3 : CL3 = 0) :
    (pk_rhs (CL1 / V1) (CL2 / V1) (CL2 / V2) (CL3 / V1) (CL3 / V3) ke0
        (A1, A2, A3, Ae) I).1 +
      (pk_rhs (CL1 / V1) (CL2 / V1) (CL2 / V2) (CL3 / V1) (CL3 / V3) ke0
        (A1, A2, A3, Ae) I).2.1 +
      (pk_rhs (CL1 / V1) (CL2 / V1) (CL2 / V2) (CL3 / V1) (CL3 / V3) ke0
        (A1, A2, A3, Ae) I).2.2.1 = I := by
  subst h1; subst h2; subst h3
  show -(0 / V1 + 0 / V1 + 0 / V1) * A1 + 0 / V2 * A2 + 0 / V3 * A3 + I +
      (0 / V1 * A1 - 0 / V2 * A2) + (0 / V1 * A1 - 0 / V3 * A3) = I
  simp

/-- Witness for C6 at a concrete state and input. -/
theorem C6_mass_conservation_witness :
    (pk_rhs ((0 : ℚ) / 1) ((0 : ℚ) / 1) ((0 : ℚ) / 2) ((0 : ℚ) / 1) ((0 : ℚ) / 3) 0.152
        (5, 6, 7, 8) 42).1 +
      (pk_rhs ((0 : ℚ) / 1) ((0 : ℚ) / 1) ((0 : ℚ) / 2) ((0 : ℚ) / 1) ((0 : ℚ) / 3) 0.152
        (5, 6, 7, 8) 42).2.1 +
      (pk_rhs ((0 : ℚ) / 1) ((0 : ℚ) / 1) ((0 : ℚ) / 2) ((0 : ℚ) / 1) ((0 : ℚ) / 3) 0.152
        (5, 6, 7, 8) 42).2.2.1 = 42 :=
  C6_mass_conservation 1 2 3 0.152 5 6 7 8 42 0 0 0 rfl rfl rfl

/-- C3: when no grid candidate's mean steady-state Ce lies in `[1.2, 1.4]`,
the computation returns the failure-shaped result with error
`"No suitable infusion rate found"`; that constructor carries no trajectory,
curve, rate, or crossing-time fields. -/
theorem C3_no_qualifying_rate (odeintF : OdeSolver) (fmtQ : ℚ → String)
    (weight bolus_dose : ℚ)
    (h : ∀ r ∈ infusion_rates_mgkg_h,
      ¬ (1.2 ≤ search_mean odeintF weight bolus_dose r ∧
          search_mean odeintF weight bolus_dose r ≤ 1.4)) :
    calculate_propofol_infusion_flexible odeintF fmtQ weight bolus_dose =
      InfusionResult.failure weight bolus_dose "No suitable infusion rate found" := by
  have hs : searchBest (fun r => search_mean odeintF weight bolus_dose r) = none := by
    unfold searchBest
    rw [search_go_none_iff]
    exact ⟨rfl, h⟩
  exact calculate_of_none odeintF fmtQ weight bolus_dose hs

/-- Witness for C3: the zero solver disqualifies every candidate. -/
theorem C3_no_qualifying_rate_witness :
    calculate_propofol_infusion_flexible odeintZ fmt0 20 2 =
      InfusionResult.failure 20 2 "No suitable infusion rate found" := by
  refine C3_no_qualifying_rate odeintZ fmt0 20 2 ?_
  intro r _ hq
  have h1 : (1.2 : ℚ) ≤ search_mean odeintZ 20 2 r := hq.1
  rw [search_mean_odeintZ] at h1
  norm_num at h1

/-- C8 (amended): the dosing function performs no weight validation — no
weight ≤ 0 input is ever rejected.  For every strictly negative weight it
runs the grid search over the pharmacokinetic core unchanged (the derived
rate constants are finite: k10 = 0.119·W / 0.458·W with W ≠ 0) and returns
an ordinary search outcome — either a success or the generic
`"No suitable infusion rate found"` failure.  At weight = 0 the source
still does not reject: it fails numerically, with ZeroDivisionError at
`k10 = CL1 / V1` (0.0/0.0) before the search; that error path lies outside
this embedding (ℚ division is total), so this theorem is deliberately
restricted to weight < 0.  (The 5–100 kg floor is enforced only by the UI
input widget, outside this function.) -/
theorem C8_no_weight_validation (odeintF : OdeSolver) (fmtQ : ℚ → String)
    (weight bolus_dose : ℚ) (hw : weight < 0) :
    (∃ d, calculate_propofol_infusion_flexible odeintF fmtQ weight bolus_dose =
        InfusionResult.success d) ∨
      calculate_propofol_infusion_flexible odeintF fmtQ weight bolus_dose =
        InfusionResult.failure weight bolus_dose "No suitable infusion rate found" := by
  cases hsb : searchBest (fun r => search_mean odeintF weight bolus_dose r) with
  | some p =>
    obtain ⟨br, bs⟩ := p
    exact Or.inl ⟨_, calculate_of_some odeintF fmtQ weight bolus_dose br bs hsb⟩
  | none => exact Or.inr (calculate_of_none odeintF fmtQ weight bolus_dose hsb)

/-- Witness for the amended C8 at weight −1 kg (discharging −1 < 0). -/
theorem C8_no_weight_validation_witness :
    (∃ d, calculate_propofol_infusion_flexible odeintZ fmt0 (-1) 2 =
        InfusionResult.success d) ∨
      calculate_propofol_infusion_flexible odeintZ fmt0 (-1) 2 =
        InfusionResult.failure (-1) 2 "No suitable infusion rate found" :=
  C8_no_weight_validation odeintZ fmt0 (-1) 2 (by norm_num)

/-- Counterexample to C8 as stated: at weight −1 < 0 the computation is not
rejected as invalid input; the grid search over the pharmacokinetic core
runs to completion and produces the ordinary no-qualifying-rate outcome of
the search, not an input-validation error. -/
theorem C8_counterexample :
    calculate_propofol_infusion_flexible odeintZ fmt0 (-1) 2 =
      InfusionResult.failure (-1) 2 "No suitable infusion rate found" := by
  have hs : searchBest (fun r => search_mean odeintZ (-1) 2 r) = none := by
    unfold searchBest
    rw [search_go_none_iff]
    refine ⟨rfl, ?_⟩
    intro r _ hq
    have h1 : (1.2 : ℚ) ≤ search_mean odeintZ (-1) 2 r := hq.1
    rw [search_mean_odeintZ] at h1
    norm_num at h1
  exact calculate_of_none odeintZ fmt0 (-1) 2 hs

/-- C7: each checkpoint row of the concentration table carries exactly the
plasma and effect-site values of the trajectory sample nearest (over the
whole grid) to the checkpoint time, rounded to 2 decimal places. -/
theorem C7_checkpoint_table (C1c Cec : Fin 1201 → ℚ) (t : ℚ) (ht : t ∈ key_times) :
    (t, pyRound2 (C1c (nearest_idx t)), pyRound2 (Cec (nearest_idx t)))
        ∈ concentration_table C1c Cec ∧
      ∀ j : Fin 1201, |time_points (nearest_idx t) - t| ≤ |time_points j - t| := by
  constructor
  · unfold concentration_table
    exact List.mem_map.mpr ⟨t, ht, rfl⟩
  · exact fun j => nearest_idx_min t j

/-- Witness for C7 at checkpoint time 0.5 with constant-zero curves. -/
theorem C7_checkpoint_table_witness :
    ((0.5 : ℚ) ∈ key_times) ∧
      (((0.5 : ℚ), pyRound2 ((fun _ : Fin 1201 => (0 : ℚ)) (nearest_idx 0.5)),
          pyRound2 ((fun _ : Fin 1201 => (0 : ℚ)) (nearest_idx 0.5)))
          ∈ concentration_table (fun _ => 0) (fun _ => 0) ∧
        ∀ j : Fin 1201, |time_points (nearest_idx 0.5) - 0.5| ≤ |time_points j - 0.5|) :=
  ⟨by unfold key_times; exact List.mem_cons_self _ _,
    C7_checkpoint_table (fun _ => 0) (fun _ => 0) 0.5
      (by unfold key_times; exact List.mem_cons_self _ _)⟩

/-- C9: for every age (months), weight > 0 (kg) and height (cm), the bolus
calculator computes BSA by Mosteller's formula, the dose by
`0.75 + 0.14·age + 45.82·BSA`, dose-per-kg as `dose / weight`, and bands
dose-per-kg as high iff strictly above 3.0, low iff strictly below 1.0, and
normal otherwise (so 1.0 and 3.0 themselves are normal). -/
theorem C9_sallam_formula (age_months weight_kg height_cm : ℝ) (hw : 0 < weight_kg) :
    calculate_bsa weight_kg height_cm = Real.sqrt ((height_cm * weight_kg) / 3600) ∧
      calculate_bolus_dose age_months (calculate_bsa weight_kg height_cm) =
        0.75 + 0.14 * age_months +
          45.82 * Real.sqrt ((height_cm * weight_kg) / 3600) ∧
      dose_per_kg age_months weight_kg height_cm =
        calculate_bolus_dose age_months (calculate_bsa weight_kg height_cm) / weight_kg ∧
      (3.0 < dose_per_kg age_months weight_kg height_cm →
        safety_band (dose_per_kg age_months weight_kg height_cm) = DoseBand.high) ∧
      (dose_per_kg age_months weight_kg height_cm < 1.0 →
        safety_band (dose_per_kg age_months weight_kg height_cm) = DoseBand.low) ∧
      (1.0 ≤ dose_per_kg age_months weight_kg height_cm →
        dose_per_kg age_months weight_kg height_cm ≤ 3.0 →
        safety_band (dose_per_kg age_months weight_kg height_cm) = DoseBand.normal) := by
  refine ⟨rfl, rfl, rfl, ?_, ?_, ?_⟩
  · intro h3
    unfold safety_band
    rw [if_pos h3]
  · intro h1
    unfold safety_band
    rw [if_neg (not_lt.mpr (le_of_lt (lt_trans h1 (by norm_num)))), if_pos h1]
  · intro hge hle
    unfold safety_band
    rw [if_neg (not_lt.mpr hle), if_neg (not_lt.mpr hge)]

/-- Witness for C9 at age 1 month, weight 4 kg, height 52 cm. -/
theorem C9_sallam_formula_witness :
    (0 : ℝ) < 4 ∧
      (calculate_bsa 4 52 = Real.sqrt ((52 * 4) / 3600) ∧
        calculate_bolus_dose 1 (calculate_bsa 4 52) =
          0.75 + 0.14 * 1 + 45.82 * Real.sqrt ((52 * 4) / 3600) ∧
        dose_per_kg 1 4 52 = calculate_bolus_dose 1 (calculate_bsa 4 52) / 4 ∧
        (3.0 < dose_per_kg 1 4 52 → safety_band (dose_per_kg 1 4 52) = DoseBand.high) ∧
        (dose_per_kg 1 4 52 < 1.0 → safety_band (dose_per_kg 1 4 52) = DoseBand.low) ∧
        (1.0 ≤ dose_per_kg 1 4 52 → dose_per_kg 1 4 52 ≤ 3.0 →
          safety_band (dose_per_kg 1 4 52) = DoseBand.normal)) :=
  ⟨by norm_num, C9_sallam_formula 1 4 52 (by norm_num)⟩

/-! ### Inversion of the success case -/

theorem success_of_rate (odeintF : OdeSolver) (fmtQ : ℚ → String)
    (weight bolus_dose br : ℚ) :
    (success_of odeintF fmtQ weight bolus_dose br).infusion_rate_mgkg_h = pyRound1 br := rfl

theorem success_of_expected (odeintF : OdeSolver) (fmtQ : ℚ → String)
    (weight bolus_dose br : ℚ) :
    (success_of odeintF fmtQ weight bolus_dose br).expected_ce =
      pyRound2 (mean_steady (Ce_of odeintF weight bolus_dose (br * weight / 60))) := rfl

theorem success_of_exceed_time (odeintF : OdeSolver) (fmtQ : ℚ → String)
    (weight bolus_dose br : ℚ) :
    (success_of odeintF fmtQ weight bolus_dose br).exceed_time =
      exceed_time_of (first_time (fun c => decide ((1.4 : ℚ) < c))
        (Ce_of odeintF weight bolus_dose (br * weight / 60))) := rfl

theorem success_of_reach_time (odeintF : OdeSolver) (fmtQ : ℚ → String)
    (weight bolus_dose br : ℚ) :
    (success_of odeintF fmtQ weight bolus_dose br).reach_time =
      reach_time_of (first_time (fun c => decide ((1.2 : ℚ) ≤ c))
        (Ce_of odeintF weight bolus_dose (br * weight / 60))) := rfl

theorem success_of_warning (odeintF : OdeSolver) (fmtQ : ℚ → String)
    (weight bolus_dose br : ℚ) :
    (success_of odeintF fmtQ weight bolus_dose br).warning =
      warning_of fmtQ (first_time (fun c => decide ((1.4 : ℚ) < c))
        (Ce_of odeintF weight bolus_dose (br * weight / 60))) := rfl

theorem success_of_reduction (odeintF : OdeSolver) (fmtQ : ℚ → String)
    (weight bolus_dose br : ℚ) :
    (success_of odeintF fmtQ weight bolus_dose br).reduction_warning =
      reduction_warning_of fmtQ (first_time (fun c => decide ((1.4 : ℚ) < c))
        (Ce_of odeintF weight bolus_dose (br * weight / 60))) := rfl

theorem success_of_reach_info (odeintF : OdeSolver) (fmtQ : ℚ → String)
    (weight bolus_dose br : ℚ) :
    (success_of odeintF fmtQ weight bolus_dose br).reach_info =
      reach_info_of fmtQ (first_time (fun c => decide ((1.2 : ℚ) ≤ c))
        (Ce_of odeintF weight bolus_dose (br * weight / 60))) := rfl

theorem success_of_C1_curve (odeintF : OdeSolver) (fmtQ : ℚ → String)
    (weight bolus_dose br : ℚ) :
    (success_of odeintF fmtQ weight bolus_dose br).C1_curve =
      C1_of odeintF weight bolus_dose (br * weight / 60) := rfl

theorem success_of_Ce_curve (odeintF : OdeSolver) (fmtQ : ℚ → String)
    (weight bolus_dose br : ℚ) :
    (success_of odeintF fmtQ weight bolus_dose br).Ce_curve =
      Ce_of odeintF weight bolus_dose (br * weight / 60) := rfl

theorem success_of_times (odeintF : OdeSolver) (fmtQ : ℚ → String)
    (weight bolus_dose br : ℚ) :
    (success_of odeintF fmtQ weight bolus_dose br).time_points = time_points := rfl

theorem exceed_time_of_some (i : Fin 1201) :
    exceed_time_of (some i) = some (time_points i) := rfl

theorem exceed_time_of_none : exceed_time_of none = none := rfl

theorem warning_of_some (fmtQ : ℚ → String) (i : Fin 1201) :
    warning_of fmtQ (some i) = exceed_warning_msg fmtQ (time_points i) := rfl

theorem warning_of_none (fmtQ : ℚ → String) :
    warning_of fmtQ none = no_exceed_warning_msg fmtQ := rfl

theorem reduction_warning_of_some (fmtQ : ℚ → String) (i : Fin 1201) :
    reduction_warning_of fmtQ (some i) = reduction_warning_msg fmtQ (time_points i) := rfl

theorem reduction_warning_of_none (fmtQ : ℚ → String) :
    reduction_warning_of fmtQ none = no_reduction_warning_msg := rfl

theorem reach_time_of_some (i : Fin 1201) :
    reach_time_of (some i) = some (time_points i) := rfl

theorem reach_time_of_none : reach_time_of none = none := rfl

theorem reach_info_of_some (fmtQ : ℚ → String) (i : Fin 1201) :
    reach_info_of fmtQ (some i) = reach_info_msg fmtQ (time_points i) := rfl

theorem reach_info_of_none (fmtQ : ℚ → String) :
    reach_info_of fmtQ none = no_reach_info_msg := rfl

/-- A success result arises exactly from a `some` outcome of the grid scan,
and is then the reporting record built at the winning rate. -/
theorem calculate_success_inv (odeintF : OdeSolver) (fmtQ : ℚ → String)
    (weight bolus_dose : ℚ) (d : SuccessData)
    (h : calculate_propofol_infusion_flexible odeintF fmtQ weight bolus_dose =
      InfusionResult.success d) :
    ∃ br bs, searchBest (fun r => search_mean odeintF weight bolus_dose r) = some (br, bs) ∧
      d = success_of odeintF fmtQ weight bolus_dose br := by
  cases hsb : searchBest (fun r => search_mean odeintF weight bolus_dose r) with
  | none =>
    rw [calculate_of_none odeintF fmtQ weight bolus_dose hsb] at h
    exact InfusionResult.noConfusion h
  | some p =>
    obtain ⟨br, bs⟩ := p
    rw [calculate_of_some odeintF fmtQ weight bolus_dose br bs hsb] at h
    injection h with h
    exact ⟨br, bs, rfl, h.symm⟩

/-- C1: whenever the computation succeeds, the recommended rate is a
candidate of the ascending grid whose mean effect-site concentration over
t > 10 min lies within [1.2, 1.4] and whose distance to the band midpoint
1.3 is minimal among all qualifying candidates; on an exact tie the smallest
(first-scanned) such rate is the one recommended. -/
theorem C1_optimal_rate (odeintF : OdeSolver) (fmtQ : ℚ → String) (weight bolus_dose : ℚ)
    (d : SuccessData)
    (h : calculate_propofol_infusion_flexible odeintF fmtQ weight bolus_dose =
      InfusionResult.success d) :
    d.infusion_rate_mgkg_h ∈ infusion_rates_mgkg_h ∧
      (1.2 ≤ search_mean odeintF weight bolus_dose d.infusion_rate_mgkg_h ∧
        search_mean odeintF weight bolus_dose d.infusion_rate_mgkg_h ≤ 1.4) ∧
      ∀ r ∈ infusion_rates_mgkg_h,
        1.2 ≤ search_mean odeintF weight bolus_dose r →
        search_mean odeintF weight bolus_dose r ≤ 1.4 →
        (|search_mean odeintF weight bolus_dose d.infusion_rate_mgkg_h - 1.3| ≤
            |search_mean odeintF weight bolus_dose r - 1.3| ∧
          (|search_mean odeintF weight bolus_dose r - 1.3| =
              |search_mean odeintF weight bolus_dose d.infusion_rate_mgkg_h - 1.3| →
            d.infusion_rate_mgkg_h ≤ r)) := by
  obtain ⟨br, bs, hsb, hd⟩ := calculate_success_inv odeintF fmtQ weight bolus_dose d h
  rcases search_go_source (fun r => search_mean odeintF weight bolus_dose r)
      infusion_rates_mgkg_h none br bs hsb with h1 | ⟨hmem, hqual, hscore⟩
  · exact absurd h1 (by simp)
  have hrate : d.infusion_rate_mgkg_h = br := by
    rw [hd, success_of_rate]
    exact pyRound1_grid br hmem
  rw [hrate]
  have hsc : ∀ x : ℚ, scoreOf (fun rr => search_mean odeintF weight bolus_dose rr) x =
      |search_mean odeintF weight bolus_dose x - 1.3| := by
    intro x
    unfold scoreOf
    norm_num
  refine ⟨hmem, ⟨hqual.1, hqual.2⟩, ?_⟩
  intro r hr h12 h14
  have hq : qualifies (fun rr => search_mean odeintF weight bolus_dose rr) r := ⟨h12, h14⟩
  have hmin := search_go_min (fun rr => search_mean odeintF weight bolus_dose rr)
    infusion_rates_mgkg_h none br bs hsb r hr hq
  constructor
  · rw [← hsc br, ← hsc r, ← hscore]
    exact hmin
  · intro heq
    refine search_go_tie (fun rr => search_mean odeintF weight bolus_dose rr)
      infusion_rates_mgkg_h infusion_rates_ascending none ?_ br bs hsb r hr hq ?_
    · intro b0 s0 hco
      exact absurd hco (by simp)
    · have hseq : scoreOf (fun rr => search_mean odeintF weight bolus_dose rr) r = bs := by
        rw [hsc r, heq, ← hsc br, ← hscore]
      exact le_of_eq hseq

/-- Witness for C1: the concrete solver model succeeds at rate 13.0. -/
theorem C1_optimal_rate_witness :
    dW.infusion_rate_mgkg_h ∈ infusion_rates_mgkg_h ∧
      (1.2 ≤ search_mean odeintW 1 2 dW.infusion_rate_mgkg_h ∧
        search_mean odeintW 1 2 dW.infusion_rate_mgkg_h ≤ 1.4) ∧
      ∀ r ∈ infusion_rates_mgkg_h,
        1.2 ≤ search_mean odeintW 1 2 r →
        search_mean odeintW 1 2 r ≤ 1.4 →
        (|search_mean odeintW 1 2 dW.infusion_rate_mgkg_h - 1.3| ≤
            |search_mean odeintW 1 2 r - 1.3| ∧
          (|search_mean odeintW 1 2 r - 1.3| =
              |search_mean odeintW 1 2 dW.infusion_rate_mgkg_h - 1.3| →
            dW.infusion_rate_mgkg_h ≤ r)) :=
  C1_optimal_rate odeintW fmt0 1 2 dW calculate_odeintW_eq

/-- C4: on success, the exceed time is the sample time of the first index of
the winning Ce curve strictly above 1.4 (and absent when the curve never
exceeds 1.4 in the horizon), the reach time is the sample time of the first
index at or above 1.2 (and absent when never reached), and the four report
messages are chosen exactly by the presence of these two times. -/
theorem C4_crossing_times (odeintF : OdeSolver) (fmtQ : ℚ → String)
    (weight bolus_dose : ℚ) (d : SuccessData)
    (h : calculate_propofol_infusion_flexible odeintF fmtQ weight bolus_dose =
      InfusionResult.success d) :
    (∀ t : ℚ, d.exceed_time = some t → ∃ i : Fin 1201, t = time_points i ∧
        1.4 < d.Ce_curve i ∧ (∀ j : Fin 1201, j < i → d.Ce_curve j ≤ 1.4) ∧
        d.warning = exceed_warning_msg fmtQ (time_points i) ∧
        d.reduction_warning = reduction_warning_msg fmtQ (time_points i)) ∧
      (d.exceed_time = none → (∀ i : Fin 1201, d.Ce_curve i ≤ 1.4) ∧
        d.warning = no_exceed_warning_msg fmtQ ∧
        d.reduction_warning = no_reduction_warning_msg) ∧
      (∀ t : ℚ, d.reach_time = some t → ∃ i : Fin 1201, t = time_points i ∧
        1.2 ≤ d.Ce_curve i ∧ (∀ j : Fin 1201, j < i → d.Ce_curve j < 1.2) ∧
        d.reach_info = reach_info_msg fmtQ (time_points i)) ∧
      (d.reach_time = none → (∀ i : Fin 1201, d.Ce_curve i < 1.2) ∧
        d.reach_info = no_reach_info_msg) := by
  obtain ⟨br, bs, hsb, hd⟩ := calculate_success_inv odeintF fmtQ weight bolus_dose d h
  subst hd
  rw [success_of_exceed_time, success_of_reach_time, success_of_warning,
    success_of_reduction, success_of_reach_info, success_of_Ce_curve]
  set Cec := Ce_of odeintF weight bolus_dose (br * weight / 60) with hCdef
  refine ⟨?_, ?_, ?_, ?_⟩
  · intro t ht
    cases hexc : first_time (fun c => decide ((1.4 : ℚ) < c)) Cec with
    | none =>
      rw [hexc, exceed_time_of_none] at ht
      exact absurd ht (by simp)
    | some i =>
      rw [hexc, exceed_time_of_some] at ht
      injection ht with ht
      obtain ⟨hgt, hfirst⟩ := first_time_some _ Cec i hexc
      refine ⟨i, ht.symm, of_decide_eq_true hgt, ?_,
        warning_of_some fmtQ i, reduction_warning_of_some fmtQ i⟩
      intro j hj
      exact le_of_not_lt (of_decide_eq_false (hfirst j hj))
  · intro ht
    cases hexc : first_time (fun c => decide ((1.4 : ℚ) < c)) Cec with
    | some i =>
      rw [hexc, exceed_time_of_some] at ht
      exact absurd ht (by simp)
    | none =>
      have hall := first_time_none _ Cec hexc
      exact ⟨fun i => le_of_not_lt (of_decide_eq_false (hall i)),
        warning_of_none fmtQ, reduction_warning_of_none fmtQ⟩
  · intro t ht
    cases hrch : first_time (fun c => decide ((1.2 : ℚ) ≤ c)) Cec with
    | none =>
      rw [hrch, reach_time_of_none] at ht
      exact absurd ht (by simp)
    | some i =>
      rw [hrch, reach_time_of_some] at ht
      injection ht with ht
      obtain ⟨hge, hfirst⟩ := first_time_some _ Cec i hrch
      refine ⟨i, ht.symm, of_decide_eq_true hge, ?_, reach_info_of_some fmtQ i⟩
      intro j hj
      exact lt_of_not_le (of_decide_eq_false (hfirst j hj))
  · intro ht
    cases hrch : first_time (fun c => decide ((1.2 : ℚ) ≤ c)) Cec with
    | some i =>
      rw [hrch, reach_time_of_some] at ht
      exact absurd ht (by simp)
    | none =>
      have hall := first_time_none _ Cec hrch
      exact ⟨fun i => lt_of_not_le (of_decide_eq_false (hall i)), reach_info_of_none fmtQ⟩

/-- Witness for C4 on the concrete solver model. -/
theorem C4_crossing_times_witness :
    (∀ t : ℚ, dW.exceed_time = some t → ∃ i : Fin 1201, t = time_points i ∧
        1.4 < dW.Ce_curve i ∧ (∀ j : Fin 1201, j < i → dW.Ce_curve j ≤ 1.4) ∧
        dW.warning = exceed_warning_msg fmt0 (time_points i) ∧
        dW.reduction_warning = reduction_warning_msg fmt0 (time_points i)) ∧
      (dW.exceed_time = none → (∀ i : Fin 1201, dW.Ce_curve i ≤ 1.4) ∧
        dW.warning = no_exceed_warning_msg fmt0 ∧
        dW.reduction_warning = no_reduction_warning_msg) ∧
      (∀ t : ℚ, dW.reach_time = some t → ∃ i : Fin 1201, t = time_points i ∧
        1.2 ≤ dW.Ce_curve i ∧ (∀ j : Fin 1201, j < i → dW.Ce_curve j < 1.2) ∧
        dW.reach_info = reach_info_msg fmt0 (time_points i)) ∧
      (dW.reach_time = none → (∀ i : Fin 1201, dW.Ce_curve i < 1.2) ∧
        dW.reach_info = no_reach_info_msg) :=
  C4_crossing_times odeintW fmt0 1 2 dW calculate_odeintW_eq

/-- C5: on success, the reporting pass re-runs the same deterministic
simulation at the winning rate with the same bolus initial condition, time
grid and parameters, so the displayed curves belong to the recommended rate
and the reported expected steady-state Ce is (up to the displayed rounding)
exactly the mean Ce over t > 10 min that scored that rate in the search
pass. -/
theorem C5_report_matches_search (odeintF : OdeSolver) (fmtQ : ℚ → String)
    (weight bolus_dose : ℚ) (d : SuccessData)
    (h : calculate_propofol_infusion_flexible odeintF fmtQ weight bolus_dose =
      InfusionResult.success d) :
    ∃ br bs, searchBest (fun r => search_mean odeintF weight bolus_dose r) = some (br, bs) ∧
      d.infusion_rate_mgkg_h = br ∧
      d.C1_curve = C1_of odeintF weight bolus_dose (br * weight / 60) ∧
      d.Ce_curve = Ce_of odeintF weight bolus_dose (br * weight / 60) ∧
      d.time_points = time_points ∧
      d.expected_ce = pyRound2 (search_mean odeintF weight bolus_dose br) := by
  obtain ⟨br, bs, hsb, hd⟩ := calculate_success_inv odeintF fmtQ weight bolus_dose d h
  rcases search_go_source (fun r => search_mean odeintF weight bolus_dose r)
      infusion_rates_mgkg_h none br bs hsb with h1 | ⟨hmem, _, _⟩
  · exact absurd h1 (by simp)
  subst hd
  refine ⟨br, bs, hsb, ?_,
    success_of_C1_curve odeintF fmtQ weight bolus_dose br,
    success_of_Ce_curve odeintF fmtQ weight bolus_dose br,
    success_of_times odeintF fmtQ weight bolus_dose br, ?_⟩
  · rw [success_of_rate]
    exact pyRound1_grid br hmem
  · rw [success_of_expected]
    rfl

/-- Witness for C5 on the concrete solver model. -/
theorem C5_report_matches_search_witness :
    ∃ br bs, searchBest (fun r => search_mean odeintW 1 2 r) = some (br, bs) ∧
      dW.infusion_rate_mgkg_h = br ∧
      dW.C1_curve = C1_of odeintW 1 2 (br * 1 / 60) ∧
      dW.Ce_curve = Ce_of odeintW 1 2 (br * 1 / 60) ∧
      dW.time_points = time_points ∧
      dW.expected_ce = pyRound2 (search_mean odeintW 1 2 br) :=
  C5_report_matches_search odeintW fmt0 1 2 dW calculate_odeintW_eq

/-- C10: on success the two crossing times are ordered — an exceed time can
only be present together with a reach time that is not later — and every
reported crossing time is a sample of the fixed 0.1-minute grid on
[0, 120]. -/
theorem C10_crossing_invariant (odeintF : OdeSolver) (fmtQ : ℚ → String)
    (weight bolus_dose : ℚ) (d : SuccessData)
    (h : calculate_propofol_infusion_flexible odeintF fmtQ weight bolus_dose =
      InfusionResult.success d) :
    (∀ te : ℚ, d.exceed_time = some te →
        ∃ tr : ℚ, d.reach_time = some tr ∧ tr ≤ te) ∧
      ∀ t : ℚ, d.exceed_time = some t ∨ d.reach_time = some t →
        ∃ k : ℕ, k ≤ 1200 ∧ t = (k : ℚ) / 10 := by
  obtain ⟨br, bs, hsb, hd⟩ := calculate_success_inv odeintF fmtQ weight bolus_dose d h
  subst hd
  rw [success_of_exceed_time, success_of_reach_time]
  set Cec := Ce_of odeintF weight bolus_dose (br * weight / 60) with hCdef
  constructor
  · intro te hte
    cases hexc : first_time (fun c => decide ((1.4 : ℚ) < c)) Cec with
    | none =>
      rw [hexc, exceed_time_of_none] at hte
      exact absurd hte (by simp)
    | some i =>
      rw [hexc, exceed_time_of_some] at hte
      injection hte with hte
      have h14 : (1.4 : ℚ) < Cec i :=
        of_decide_eq_true (first_time_some _ Cec i hexc).1
      cases hrch : first_time (fun c => decide ((1.2 : ℚ) ≤ c)) Cec with
      | none =>
        exfalso
        have hall := first_time_none _ Cec hrch i
        exact (of_decide_eq_false hall) (le_of_lt (lt_trans (by norm_num) h14))
      | some j =>
        refine ⟨time_points j, reach_time_of_some j, ?_⟩
        have hji : ¬ i < j := by
          intro hij
          have hfalse := (first_time_some _ Cec j hrch).2 i hij
          exact (of_decide_eq_false hfalse) (le_of_lt (lt_trans (by norm_num) h14))
        have hv : ((j : Fin 1201).val : ℚ) ≤ ((i : Fin 1201).val : ℚ) := by
          exact_mod_cast (show j.val ≤ i.val from le_of_not_lt hji)
        rw [← hte]
        unfold time_points
        linarith
  · intro t ht
    rcases ht with ht | ht
    · cases hexc : first_time (fun c => decide ((1.4 : ℚ) < c)) Cec with
      | none =>
        rw [hexc, exceed_time_of_none] at ht
        exact absurd ht (by simp)
      | some i =>
        rw [hexc, exceed_time_of_some] at ht
        injection ht with ht
        exact ⟨i.val, by have := i.isLt; omega, ht.symm⟩
    · cases hrch : first_time (fun c => decide ((1.2 : ℚ) ≤ c)) Cec with
      | none =>
        rw [hrch, reach_time_of_none] at ht
        exact absurd ht (by simp)
      | some i =>
        rw [hrch, reach_time_of_some] at ht
        injection ht with ht
        exact ⟨i.val, by have := i.isLt; omega, ht.symm⟩

/-- Witness for C10 on the concrete solver model. -/
theorem C10_crossing_invariant_witness :
    (∀ te : ℚ, dW.exceed_time = some te →
        ∃ tr : ℚ, dW.reach_time = some tr ∧ tr ≤ te) ∧
      ∀ t : ℚ, dW.exceed_time = some t ∨ dW.reach_time = some t →
        ∃ k : ℕ, k ≤ 1200 ∧ t = (k : ℚ) / 10 :=
  C10_crossing_invariant odeintW fmt0 1 2 dW calculate_odeintW_eq

end Propofol
